import Mathlib

/-!
Verification of the conversation-file batching and vector-store assembly
pipeline of the `poc-azure-assistant` repository.

The TypeScript operations are shallowly embedded as pure Lean functions.
Network collaborators (the blob store and the LLM provider) are passed in as
oracle functions, and the provider calls a function issues are returned as an
explicit instrumentation list so that call counts and call arguments can be
reasoned about.
-/

namespace PocAzure

/-- The repository's uniform `Result<T,E>` union (`src/unnamed/part_010`):
a tagged union with discriminant `type: 'ok' | 'error'`, payload `data` on
success and `error` on failure. -/
inductive Result (α : Type) (ε : Type) where
  | ok (data : α)
  | error (error : ε)
deriving DecidableEq, Repr

/-- `ok`-projection of a `Result`, used to collect the successful outcomes of
a best-effort loop. -/
def Result.toOption : Result α ε → Option α
  | .ok a => some a
  | .error _ => none

/-- Whether a `Result` is the `error` case. -/
def Result.isError : Result α ε → Bool
  | .ok _ => false
  | .error _ => true

/-- A primitive JSON value stored in a `Record<string, any>` metadata object.
The pipeline only ever stores strings and numbers. -/
inductive MetaValue where
  | str (s : String)
  | num (n : Int)
deriving DecidableEq, Repr

/-- A JavaScript object used as a `Record<string, any>` metadata mapping,
modelled by its key lookup function. -/
def Metadata := String → Option MetaValue

/-- The empty object `{}`. -/
def Metadata.empty : Metadata := fun _ => none

/-- JavaScript property assignment: `{...m, k: v}` restricted to the single
key `k`; later assignments override earlier ones. -/
def Metadata.set (m : Metadata) (k : String) (v : MetaValue) : Metadata :=
  fun k2 => if k2 = k then some v else m k2

/-- One call to the provider's `vectorStores.create` endpoint, recording the
`file_ids` and `metadata` request fields. -/
structure CreateCall where
  file_ids : List String
  metadata : Metadata

/-- `createVectorStoreFromFiles` (src/src/responses/createVectorStoreFromFiles.ts).
`provider` is the outcome of `client.vectorStores.create` for given request
fields (an exception thrown by the SDK is its `error` case, which the
function's `catch` turns into `err`).  The second component lists the provider
calls the function issued. -/
def createVectorStoreFromFiles (provider : List String → Metadata → Result String String)
    (fileIds : List String) (metadata : Option Metadata) :
    Result String String × List CreateCall :=
  if fileIds.length = 0 then
    (Result.error "No file IDs provided for vector store creation", [])
  else
    let m := metadata.getD Metadata.empty
    (provider fileIds m, [⟨fileIds, m⟩])

/-- The batch-splitting loop of `createBatchedVectorStores`
(src/src/responses/createBatchedVectorStores.ts lines 40-42):
`for (let i = 0; i < fileIds.length; i += batchSize) batches.push(fileIds.slice(i, i + batchSize))`.
`fileIds.slice(i, i + batchSize)` is `(fileIds.drop i).take batchSize`.
The loop only ever runs with a positive `batchSize` (hypothesis `hbs`), which
is what makes it terminate. -/
def chunkLoop (batchSize : Nat) (hbs : 0 < batchSize) (fileIds : List String)
    (i : Nat) : List (List String) :=
  if i < fileIds.length then
    (fileIds.drop i).take batchSize :: chunkLoop batchSize hbs fileIds (i + batchSize)
  else
    []
termination_by fileIds.length - i
decreasing_by omega

/-- The batches computed by `createBatchedVectorStores`: the splitting loop
started at index 0. -/
def batchesOf (batchSize : Nat) (hbs : 0 < batchSize) (fileIds : List String) :
    List (List String) :=
  chunkLoop batchSize hbs fileIds 0

/-- The per-batch metadata of `createBatchedVectorStores` (lines 47-52):
`{...metadata, batchNumber: i + 1, totalBatches: batches.length, batchSize: batch.length}`. -/
def batchMeta (base : Option Metadata) (batchNumber totalBatches batchSize : Nat) :
    Metadata :=
  (((base.getD Metadata.empty).set "batchNumber" (.num batchNumber)).set
      "totalBatches" (.num totalBatches)).set "batchSize" (.num batchSize)

/-- The per-batch creation loop of `createBatchedVectorStores` (lines 45-68):
calls `createVectorStoreFromFiles` for each batch in order, pushes the new
store id on success and skips the batch on error.  Returns the collected
store ids together with all provider calls issued. -/
def batchCreateLoop (provider : List String → Metadata → Result String String)
    (metadata : Option Metadata) (total : Nat) :
    List (List String) → Nat → List String × List CreateCall
  | [], _ => ([], [])
  | batch :: rest, i =>
    let bm := batchMeta metadata (i + 1) total batch.length
    let step := createVectorStoreFromFiles provider batch (some bm)
    let restRes := batchCreateLoop provider metadata total rest (i + 1)
    match step.1 with
    | .ok id => (id :: restRes.1, step.2 ++ restRes.2)
    | .error _ => (restRes.1, step.2 ++ restRes.2)

/-- `createBatchedVectorStores` (src/src/responses/createBatchedVectorStores.ts):
validates non-emptiness locally, splits the ids into contiguous slices of
length `batchSize`, creates one vector store per slice and returns `ok` with
the ids of the slices that succeeded. -/
def createBatchedVectorStores (provider : List String → Metadata → Result String String)
    (fileIds : List String) (batchSize : Nat) (hbs : 0 < batchSize)
    (metadata : Option Metadata) :
    Result (List String) String × List CreateCall :=
  if fileIds.length = 0 then
    (Result.error "No file IDs provided for batched vector store creation", [])
  else
    let batches := batchesOf batchSize hbs fileIds
    let res := batchCreateLoop provider metadata batches.length batches 0
    (Result.ok res.1, res.2)

/-- Specification companion of `batchCreateLoop`: the provider call issued for
each batch, in batch order (`j` is the 0-based index of the first batch). -/
def batchCalls (metadata : Option Metadata) (total : Nat) :
    List (List String) → Nat → List CreateCall
  | [], _ => []
  | b :: rest, j =>
    ⟨b, batchMeta metadata (j + 1) total b.length⟩ :: batchCalls metadata total rest (j + 1)

/-- Structural companion of `chunkLoop`: chunk off `batchSize` elements at a
time from the front.  Used as the induction vehicle for the partition laws. -/
def chunks (batchSize : Nat) (hbs : 0 < batchSize) : List String → List (List String)
  | [] => []
  | x :: rest => ((x :: rest).take batchSize) :: chunks batchSize hbs ((x :: rest).drop batchSize)
termination_by l => l.length
decreasing_by simp; omega

/-- The Azure storage environment variables read by the aggregator and the
uploader (`AZURE_STORAGE_ACCOUNT_NAME`, `AZURE_STORAGE_ACCOUNT_KEY`,
`AZURE_STORAGE_CONTAINER_NAME`); `none` models an unset variable. -/
structure StorageEnv where
  accountName : Option String
  accountKey : Option String
  containerName : Option String

/-- JavaScript truthiness of `process.env.X`: both `undefined` and the empty
string are falsy. -/
def truthy (s : Option String) : Bool := !(s.getD "" == "")

/-- The credential check `if (!storageAccountName || !storageAccountKey)`. -/
def StorageEnv.credsOk (env : StorageEnv) : Bool :=
  truthy env.accountName && truthy env.accountKey

/-- Helper for `jsReplaceFirst` over character lists: replace the first
occurrence of `pat` in the list by `repl`. -/
def replaceOnceAux (pat repl : List Char) : List Char → List Char
  | [] => []
  | c :: rest =>
    if pat.isPrefixOf (c :: rest) then repl ++ (c :: rest).drop pat.length
    else c :: replaceOnceAux pat repl rest

/-- JavaScript `s.replace(pat, repl)` with a string pattern: replaces only the
first occurrence.  Used by the aggregator as `blob.name.replace(prefix, '')`. -/
def jsReplaceFirst (s pat repl : String) : String :=
  ⟨replaceOnceAux pat.data repl.data s.data⟩

/-- The upload loop of `uploadAllFilesFromConversation` (src/unnamed/part_008):
for each listed file name in order, attempt the upload; push the returned id
into `fileIds` on success, push the file name into `failedFiles` on error,
and keep going either way.  Returns `(fileIds, failedFiles)`. -/
def uploadLoop (uploader : String → Result String String) :
    List String → List String × List String
  | [] => ([], [])
  | fn :: rest =>
    let r := uploadLoop uploader rest
    match uploader fn with
    | .ok fid => (fid :: r.1, r.2)
    | .error _ => (r.1, fn :: r.2)

/-- The listing loop of `uploadAllFilesFromConversation` (src/unnamed/part_008):
for each listed blob name, strip the conversation key-prefix via
`blob.name.replace(prefix, '')` and keep the name only if it is non-empty
(`if (fileName) fileList.push(fileName)`). -/
def aggFileList (conversationId : String) (blobNames : List String) : List String :=
  blobNames.filterMap fun nm =>
    let fileName := jsReplaceFirst nm (conversationId ++ "/") ""
    if fileName ≠ "" then some fileName else none

/-- `uploadAllFilesFromConversation` (src/unnamed/part_008).  `listing` is the
outcome of enumerating `listBlobsFlat({prefix: conversationId + "/"})` (full
blob names; a thrown enumeration error is its `error` case, converted to `err`
by the surrounding `catch`).  `uploader` is the outcome of
`uploadFileFromStorage` per stripped file name.  The second component is the
`failedFiles` list reported to the log. -/
def uploadAllFilesFromConversation (env : StorageEnv)
    (listing : Result (List String) String)
    (uploader : String → Result String String)
    (conversationId : String) :
    Result (List String) String × List String :=
  if !env.credsOk then
    (Result.error "Missing Azure Storage credentials in environment variables", [])
  else
    match listing with
    | .error e => (Result.error e, [])
    | .ok blobNames =>
      let fileList := aggFileList conversationId blobNames
      if fileList.length = 0 then
        (Result.ok [], [])
      else
        let up := uploadLoop uploader fileList
        (Result.ok up.1, up.2)

/-- `uploadFileFromStorage` (src/src/responses/createBatchedVectorStores.ts
lines 104-188).  `download` is the outcome of `blobClient.downloadToFile`,
`leftoverAfterFailedDownload` says whether a failed download left a scratch
file behind, `upload` is the outcome of `client.files.create`, and
`tempExists0` is whether the scratch path existed before the call.  The second
component is whether the scratch file exists after the call: the `catch` block
runs `if (fs.existsSync(tempFilePath)) fs.unlinkSync(tempFilePath)` and the
success path runs `fs.unlinkSync(tempFilePath)`. -/
def uploadFileFromStorage (env : StorageEnv)
    (download : Result Unit String) (leftoverAfterFailedDownload : Bool)
    (upload : Result String String) (tempExists0 : Bool) :
    Result String String × Bool :=
  if !env.credsOk then
    (Result.error "Missing Azure Storage credentials in environment variables", tempExists0)
  else
    match download with
    | .error e =>
      (Result.error e, if leftoverAfterFailedDownload then false else leftoverAfterFailedDownload)
    | .ok _ =>
      match upload with
      | .error e => (Result.error e, if true then false else true)
      | .ok fid => (Result.ok fid, false)

/-- One vector store as returned by the provider's `vectorStores.list` page:
its id and its (possibly absent) metadata object. -/
structure StoreEntry where
  id : String
  metadata : Option Metadata

/-- The client-side filter of `getVectorStoresForConversation`
(src/src/llmResponse.ts lines 808-813): keep a store when
`store.metadata && typeof store.metadata === 'object' &&
'conversationId' in store.metadata &&
store.metadata.conversationId === conversationId`. -/
def storeMatchesConversation (conversationId : String) (s : StoreEntry) : Bool :=
  match s.metadata with
  | none => false
  | some m =>
    match m "conversationId" with
    | some v => v == MetaValue.str conversationId
    | none => false

/-- `getVectorStoresForConversation` (src/src/llmResponse.ts lines 790-833).
`listProvider` maps the requested page `limit` to the outcome of
`client.vectorStores.list({limit})`.  The second component records the limits
of the list requests issued. -/
def getVectorStoresForConversation
    (listProvider : Nat → Result (List StoreEntry) String)
    (conversationId : String) :
    Result (List String) String × List Nat :=
  match listProvider 100 with
  | .error e => (Result.error e, [100])
  | .ok stores =>
    (Result.ok ((stores.filter (storeMatchesConversation conversationId)).map StoreEntry.id),
     [100])

/-- `createVectorStoreFromConversation`
(src/src/responses/createVectorStoreFromConversation.ts): aggregate the
conversation's uploads, error out on zero files, default the metadata to
`{conversationId, createdAt}` only when none was supplied
(`metadata || {...}`), then build one store.  `now` is
`new Date().toISOString()`. -/
def createVectorStoreFromConversation (env : StorageEnv)
    (listing : Result (List String) String)
    (uploader : String → Result String String)
    (provider : List String → Metadata → Result String String)
    (conversationId : String) (metadata : Option Metadata) (now : String) :
    Result String String × List CreateCall :=
  let up := uploadAllFilesFromConversation env listing uploader conversationId
  match up.1 with
  | .error e => (Result.error e, [])
  | .ok fileIds =>
    if fileIds.length = 0 then
      (Result.error "No files found in conversation to create vector store", [])
    else
      let vectorMetadata :=
        match metadata with
        | some m => m
        | none =>
          (Metadata.empty.set "conversationId" (.str conversationId)).set
            "createdAt" (.str now)
      let r := createVectorStoreFromFiles provider fileIds (some vectorMetadata)
      match r.1 with
      | .error e => (Result.error e, r.2)
      | .ok id => (Result.ok id, r.2)

/-- `createBatchedVectorStoresFromConversation` (src/unnamed/part_009):
aggregate the conversation's uploads, return `ok []` on zero files, always
stamp `{...(metadata || {}), conversationId, createdAt}` onto the base
metadata, then build batched stores. -/
def createBatchedVectorStoresFromConversation (env : StorageEnv)
    (listing : Result (List String) String)
    (uploader : String → Result String String)
    (provider : List String → Metadata → Result String String)
    (conversationId : String) (batchSize : Nat) (hbs : 0 < batchSize)
    (metadata : Option Metadata) (now : String) :
    Result (List String) String × List CreateCall :=
  let up := uploadAllFilesFromConversation env listing uploader conversationId
  match up.1 with
  | .error e => (Result.error e, [])
  | .ok fileIds =>
    if fileIds.length = 0 then
      (Result.ok [], [])
    else
      let vectorMetadata :=
        ((metadata.getD Metadata.empty).set "conversationId" (.str conversationId)).set
          "createdAt" (.str now)
      let r := createBatchedVectorStores provider fileIds batchSize hbs (some vectorMetadata)
      match r.1 with
      | .error e => (Result.error e, r.2)
      | .ok ids => (Result.ok ids, r.2)

/-- The HTTP boundary's batch-size parsing (src/unnamed/part_004 handlers for
`/api/vector-store/create-batched*`):
`const parsedBatchSize = batchSize ? parseInt(batchSize) : 20` over an integer
request-body value.  The number `0` is falsy in JavaScript, so it selects the
default `20`. -/
def parsedBatchSize (body : Option Int) : Int :=
  match body with
  | none => 20
  | some b => if b = 0 then 20 else b

/-- The boundary validation
`if (isNaN(parsedBatchSize) || parsedBatchSize <= 0) return 400`:
`none` models the rejected (HTTP 400) case, `some n` the batch size handed to
the core. -/
def boundaryBatchSize (body : Option Int) : Option Nat :=
  if parsedBatchSize body ≤ 0 then none else some (parsedBatchSize body).toNat

/-- A batch size that passes the boundary validation is positive; used to
instantiate the partition loop's termination hypothesis. -/
def boundaryBatchSize_pos {body : Option Int} {n : Nat}
    (h : boundaryBatchSize body = some n) : 0 < n := by
  unfold boundaryBatchSize at h
  split at h
  · exact absurd h (by simp)
  · rename_i hle
    have hn : (parsedBatchSize body).toNat = n := by
      simpa using h
    omega

/-- The `/api/vector-store/create-batched` handler (src/unnamed/part_004
lines 340-393): validate `fileIds` non-empty and `batchSize` positive, then
run the core partitioner. -/
def boundaryCreateBatched (provider : List String → Metadata → Result String String)
    (fileIds : List String) (body : Option Int) (metadata : Option Metadata) :
    Result (List String) String :=
  if fileIds.length = 0 then
    Result.error "The request must include a non-empty fileIds array"
  else
    match h : boundaryBatchSize body with
    | none => Result.error "The batchSize must be a positive number"
    | some n =>
      (createBatchedVectorStores provider fileIds n (boundaryBatchSize_pos h) metadata).1

@[simp] theorem Metadata.set_lookup (m : Metadata) (k k2 : String) (v : MetaValue) :
    Metadata.set m k v k2 = if k2 = k then some v else m k2 := rfl

theorem chunkLoop_eq_chunks_aux (bs : Nat) (hbs : 0 < bs) :
    ∀ (n : Nat) (l : List String) (i : Nat), l.length - i ≤ n →
      chunkLoop bs hbs l i = chunks bs hbs (l.drop i) := by
  intro n
  induction n with
  | zero =>
    intro l i hle
    rw [chunkLoop]
    have h : ¬ i < l.length := by omega
    rw [if_neg h, List.drop_eq_nil_of_le (by omega), chunks]
  | succ n ih =>
    intro l i hle
    rw [chunkLoop]
    by_cases h : i < l.length
    · rw [if_pos h, ih l (i + bs) (by omega)]
      cases hd : l.drop i with
      | nil =>
        exfalso
        have := congrArg List.length hd
        simp at this
        omega
      | cons x rest =>
        rw [chunks, ← hd, List.drop_drop]
    · rw [if_neg h, List.drop_eq_nil_of_le (by omega), chunks]

theorem batchesOf_eq_chunks (bs : Nat) (hbs : 0 < bs) (l : List String) :
    batchesOf bs hbs l = chunks bs hbs l := by
  have := chunkLoop_eq_chunks_aux bs hbs l.length l 0 (by omega)
  simpa [batchesOf] using this

theorem chunks_flatten_aux (bs : Nat) (hbs : 0 < bs) :
    ∀ (n : Nat) (l : List String), l.length ≤ n → (chunks bs hbs l).flatten = l := by
  intro n
  induction n with
  | zero =>
    intro l hl
    cases l with
    | nil => rw [chunks]; rfl
    | cons x rest => simp at hl
  | succ n ih =>
    intro l hl
    cases l with
    | nil => rw [chunks]; rfl
    | cons x rest =>
      rw [chunks]
      simp only [List.flatten_cons]
      rw [ih ((x :: rest).drop bs) (by simp at hl ⊢; omega)]
      exact List.take_append_drop bs (x :: rest)

theorem chunks_flatten (bs : Nat) (hbs : 0 < bs) (l : List String) :
    (chunks bs hbs l).flatten = l :=
  chunks_flatten_aux bs hbs l.length l (Nat.le_refl _)

theorem chunks_mem_aux (bs : Nat) (hbs : 0 < bs) :
    ∀ (n : Nat) (l : List String), l.length ≤ n → ∀ b ∈ chunks bs hbs l,
      b ≠ [] ∧ b.length ≤ bs := by
  intro n
  induction n with
  | zero =>
    intro l hl b hb
    cases l with
    | nil => rw [chunks] at hb; simp at hb
    | cons x rest => simp at hl
  | succ n ih =>
    intro l hl b hb
    cases l with
    | nil => rw [chunks] at hb; simp at hb
    | cons x rest =>
      rw [chunks] at hb
      rcases List.mem_cons.mp hb with h | h
      · subst h
        refine ⟨?_, List.length_take_le bs (x :: rest)⟩
        intro hemp
        have := congrArg List.length hemp
        simp at this
        omega
      · exact ih ((x :: rest).drop bs) (by simp at hl ⊢; omega) b h

theorem chunks_mem (bs : Nat) (hbs : 0 < bs) (l : List String) :
    ∀ b ∈ chunks bs hbs l, b ≠ [] ∧ b.length ≤ bs :=
  chunks_mem_aux bs hbs l.length l (Nat.le_refl _)

theorem chunks_length_aux (bs : Nat) (hbs : 0 < bs) :
    ∀ (n : Nat) (l : List String), l.length ≤ n →
      (chunks bs hbs l).length = (l.length + bs - 1) / bs := by
  intro n
  induction n with
  | zero =>
    intro l hl
    cases l with
    | nil =>
      rw [chunks]
      simp
      rw [Nat.div_eq_of_lt (by omega)]
    | cons x rest => simp at hl
  | succ n ih =>
    intro l hl
    cases l with
    | nil =>
      rw [chunks]
      simp
      rw [Nat.div_eq_of_lt (by omega)]
    | cons x rest =>
      rw [chunks]
      simp only [List.length_cons]
      rw [ih ((x :: rest).drop bs) (by simp at hl ⊢; omega)]
      simp only [List.length_drop, List.length_cons]
      rw [show rest.length + 1 + bs - 1 = rest.length + bs by omega,
        Nat.add_div_right _ hbs]
      by_cases hcase : rest.length + 1 ≤ bs
      · rw [show rest.length + 1 - bs + bs - 1 = bs - 1 by omega,
          Nat.div_eq_of_lt (show bs - 1 < bs by omega),
          Nat.div_eq_of_lt (show rest.length < bs by omega)]
      · rw [show rest.length + 1 - bs + bs - 1 = rest.length by omega,
          Nat.add_comm]

theorem chunks_length (bs : Nat) (hbs : 0 < bs) (l : List String) :
    (chunks bs hbs l).length = (l.length + bs - 1) / bs :=
  chunks_length_aux bs hbs l.length l (Nat.le_refl _)

theorem chunks_ne_nil (bs : Nat) (hbs : 0 < bs) (l : List String) (hl : l ≠ []) :
    chunks bs hbs l ≠ [] := by
  cases l with
  | nil => exact absurd rfl hl
  | cons x rest => rw [chunks]; simp

theorem chunks_getLast_aux (bs : Nat) (hbs : 0 < bs) :
    ∀ (n : Nat) (l : List String), l.length ≤ n → l ≠ [] →
      ∃ lastB, (chunks bs hbs l).getLast? = some lastB ∧
        lastB.length = l.length - bs * ((chunks bs hbs l).length - 1) := by
  intro n
  induction n with
  | zero =>
    intro l hl hne
    cases l with
    | nil => exact absurd rfl hne
    | cons x rest => simp at hl
  | succ n ih =>
    intro l hl hne
    cases l with
    | nil => exact absurd rfl hne
    | cons x rest =>
      by_cases hcase : rest.length + 1 ≤ bs
      · have hdrop : (x :: rest).drop bs = [] :=
          List.drop_eq_nil_of_le (by simpa using hcase)
        rw [chunks, hdrop, chunks]
        refine ⟨(x :: rest).take bs, rfl, ?_⟩
        simp
        omega
      · have hdropne : (x :: rest).drop bs ≠ [] := by
          intro hd
          have := congrArg List.length hd
          simp at this
          omega
        have hcne := chunks_ne_nil bs hbs ((x :: rest).drop bs) hdropne
        obtain ⟨lastB, hlast, hlen⟩ :=
          ih ((x :: rest).drop bs) (by simp at hl ⊢; omega) hdropne
        rw [chunks]
        refine ⟨lastB, ?_, ?_⟩
        · cases hc : chunks bs hbs ((x :: rest).drop bs) with
          | nil => exact absurd hc hcne
          | cons c cs =>
            rw [List.getLast?_cons_cons, ← hc, hlast]
        · have hpos : 0 < (chunks bs hbs ((x :: rest).drop bs)).length :=
            List.length_pos.mpr hcne
          obtain ⟨m, hm⟩ : ∃ m, (chunks bs hbs ((x :: rest).drop bs)).length = m + 1 :=
            ⟨_, (Nat.succ_pred_eq_of_pos hpos).symm⟩
          have hk : ((x :: rest).take bs :: chunks bs hbs ((x :: rest).drop bs)).length
              = m + 2 := by
            simp [hm]
          rw [hlen, hm, hk]
          simp only [List.length_drop, List.length_cons]
          rw [show m + 2 - 1 = m + 1 by omega, show m + 1 - 1 = m by omega, Nat.mul_succ]
          omega

theorem chunks_getLast (bs : Nat) (hbs : 0 < bs) (l : List String) (hl : l ≠ []) :
    ∃ lastB, (chunks bs hbs l).getLast? = some lastB ∧
      lastB.length = l.length - bs * ((chunks bs hbs l).length - 1) :=
  chunks_getLast_aux bs hbs l.length l (Nat.le_refl _) hl

theorem batchMeta_batchNumber (base : Option Metadata) (n t s : Nat) :
    batchMeta base n t s "batchNumber" = some (.num n) := by
  simp [batchMeta]

theorem batchMeta_totalBatches (base : Option Metadata) (n t s : Nat) :
    batchMeta base n t s "totalBatches" = some (.num t) := by
  simp [batchMeta]

theorem batchMeta_batchSize (base : Option Metadata) (n t s : Nat) :
    batchMeta base n t s "batchSize" = some (.num s) := by
  simp [batchMeta]

theorem batchMeta_other (base : Option Metadata) (n t s : Nat) (k : String)
    (h1 : k ≠ "batchNumber") (h2 : k ≠ "totalBatches") (h3 : k ≠ "batchSize") :
    batchMeta base n t s k = (base.getD Metadata.empty) k := by
  simp [batchMeta, h1, h2, h3]

theorem batchCalls_length (metadata : Option Metadata) (total : Nat) :
    ∀ (bl : List (List String)) (j : Nat), (batchCalls metadata total bl j).length = bl.length := by
  intro bl
  induction bl with
  | nil => intro j; rfl
  | cons b rest ih => intro j; simp [batchCalls, ih]

theorem batchCalls_get? (metadata : Option Metadata) (total : Nat) :
    ∀ (bl : List (List String)) (j k : Nat),
      (batchCalls metadata total bl j).get? k =
        (bl.get? k).map fun b => ⟨b, batchMeta metadata (j + k + 1) total b.length⟩ := by
  intro bl
  induction bl with
  | nil => intro j k; rfl
  | cons b rest ih =>
    intro j k
    cases k with
    | zero => rfl
    | succ k =>
      simp only [batchCalls, List.get?_cons_succ]
      rw [ih (j + 1) k]
      have harith : j + 1 + k + 1 = j + (k + 1) + 1 := by omega
      rw [harith]

theorem mem_batchCalls (metadata : Option Metadata) (total : Nat) :
    ∀ (bl : List (List String)) (j : Nat) (c : CreateCall),
      c ∈ batchCalls metadata total bl j →
        ∃ n b, c = ⟨b, batchMeta metadata n total b.length⟩ := by
  intro bl
  induction bl with
  | nil => intro j c hc; simp [batchCalls] at hc
  | cons b rest ih =>
    intro j c hc
    rcases List.mem_cons.mp hc with h | h
    · exact ⟨j + 1, b, h⟩
    · exact ih (j + 1) c h

/-- The per-batch creation loop computes: collected ids = the `ok` outcomes of
the provider calls, in order; recorded calls = one call per (non-empty)
batch. -/
theorem batchCreateLoop_spec (provider : List String → Metadata → Result String String)
    (metadata : Option Metadata) (total : Nat) :
    ∀ (bl : List (List String)) (j : Nat), (∀ b ∈ bl, b ≠ []) →
      batchCreateLoop provider metadata total bl j =
        ((batchCalls metadata total bl j).filterMap
            (fun c => (provider c.file_ids c.metadata).toOption),
         batchCalls metadata total bl j) := by
  intro bl
  induction bl with
  | nil => intro j hne; rfl
  | cons b rest ih =>
    intro j hne
    have hbne : b ≠ [] := hne b (List.mem_cons_self b rest)
    have hlen : ¬ b.length = 0 := by
      intro h
      exact hbne (List.length_eq_zero.mp h)
    simp only [batchCreateLoop, createVectorStoreFromFiles, if_neg hlen]
    rw [ih (j + 1) (fun b2 hb2 => hne b2 (List.mem_cons_of_mem b hb2))]
    simp only [batchCalls, List.filterMap_cons, Option.getD_some]
    cases hp : provider b (batchMeta metadata (j + 1) total b.length) with
    | ok id => simp [hp, Result.toOption]
    | error e => simp [hp, Result.toOption]

/-- `createBatchedVectorStores` on a non-empty input: always `ok`, with the
successful store ids, and one provider call per batch. -/
theorem createBatchedVectorStores_spec
    (provider : List String → Metadata → Result String String)
    (fileIds : List String) (bs : Nat) (hbs : 0 < bs) (metadata : Option Metadata)
    (hne : fileIds ≠ []) :
    createBatchedVectorStores provider fileIds bs hbs metadata =
      (Result.ok ((batchCalls metadata (batchesOf bs hbs fileIds).length
          (batchesOf bs hbs fileIds) 0).filterMap
            (fun c => (provider c.file_ids c.metadata).toOption)),
       batchCalls metadata (batchesOf bs hbs fileIds).length (batchesOf bs hbs fileIds) 0) := by
  have hlen : ¬ fileIds.length = 0 := by
    intro h
    exact hne (List.length_eq_zero.mp h)
  simp only [createBatchedVectorStores, if_neg hlen]
  rw [batchCreateLoop_spec provider metadata (batchesOf bs hbs fileIds).length
    (batchesOf bs hbs fileIds) 0 ?hne]
  case hne =>
    intro b hb
    rw [batchesOf_eq_chunks] at hb
    exact (chunks_mem bs hbs fileIds b hb).1

/-- The aggregator's upload loop computes: ids = the `ok` outcomes in listing
order; failures = the names whose upload errored, in listing order. -/
theorem uploadLoop_spec (uploader : String → Result String String) :
    ∀ (fl : List String),
      uploadLoop uploader fl =
        (fl.filterMap (fun fn => (uploader fn).toOption),
         fl.filter (fun fn => (uploader fn).isError)) := by
  intro fl
  induction fl with
  | nil => rfl
  | cons fn rest ih =>
    simp only [uploadLoop, ih]
    cases hu : uploader fn with
    | ok fid => simp [hu, Result.toOption, Result.isError, List.filterMap_cons, List.filter_cons]
    | error e => simp [hu, Result.toOption, Result.isError, List.filterMap_cons, List.filter_cons]

theorem Result.toOption_eq_none_of_isError {r : Result α ε}
    (h : r.isError = true) : r.toOption = none := by
  cases r with
  | ok a => simp [Result.isError] at h
  | error e => rfl

/-- The aggregator on a successful listing: always `ok`, the successful ids in
listing order, the failed names in the failure log. -/
theorem uploadAllFiles_spec (env : StorageEnv) (uploader : String → Result String String)
    (cid : String) (names : List String) (hcreds : env.credsOk = true) :
    uploadAllFilesFromConversation env (Result.ok names) uploader cid =
      (Result.ok ((aggFileList cid names).filterMap fun fn => (uploader fn).toOption),
       (aggFileList cid names).filter fun fn => (uploader fn).isError) := by
  simp only [uploadAllFilesFromConversation, hcreds, Bool.not_true]
  by_cases h : (aggFileList cid names).length = 0
  · have hnil : aggFileList cid names = [] := List.length_eq_zero.mp h
    simp [h, hnil]
  · simp [h, uploadLoop_spec]

/-- C1: for every non-empty `fileIds` and `batchSize ≥ 1`, the slices computed
by `createBatchedVectorStores` are contiguous and order-preserving
(concatenating them reproduces `fileIds`), each has length between 1 and
`batchSize`, their number is `⌈|fileIds| / batchSize⌉`, and the last slice has
length `|fileIds| − batchSize·(slices − 1)`. -/
theorem claim_C1 (fileIds : List String) (bs : Nat) (hbs : 0 < bs)
    (hne : fileIds ≠ []) :
    (batchesOf bs hbs fileIds).flatten = fileIds ∧
    (∀ b ∈ batchesOf bs hbs fileIds, 1 ≤ b.length ∧ b.length ≤ bs) ∧
    (batchesOf bs hbs fileIds).length = (fileIds.length + bs - 1) / bs ∧
    ∃ lastB, (batchesOf bs hbs fileIds).getLast? = some lastB ∧
      lastB.length = fileIds.length - bs * ((batchesOf bs hbs fileIds).length - 1) := by
  rw [batchesOf_eq_chunks]
  refine ⟨chunks_flatten bs hbs fileIds, ?_, chunks_length bs hbs fileIds,
    chunks_getLast bs hbs fileIds hne⟩
  intro b hb
  obtain ⟨h1, h2⟩ := chunks_mem bs hbs fileIds b hb
  exact ⟨List.length_pos.mpr h1, h2⟩

theorem claim_C1_witness :
    (0 < 2 ∧ (["f1", "f2", "f3", "f4", "f5"] : List String) ≠ []) ∧
    ((batchesOf 2 (by decide) ["f1", "f2", "f3", "f4", "f5"]).flatten
        = ["f1", "f2", "f3", "f4", "f5"] ∧
     (∀ b ∈ batchesOf 2 (by decide) ["f1", "f2", "f3", "f4", "f5"],
        1 ≤ b.length ∧ b.length ≤ 2) ∧
     (batchesOf 2 (by decide) ["f1", "f2", "f3", "f4", "f5"]).length = (5 + 2 - 1) / 2 ∧
     ∃ lastB, (batchesOf 2 (by decide) ["f1", "f2", "f3", "f4", "f5"]).getLast?
          = some lastB ∧
        lastB.length = 5 - 2 * ((batchesOf 2 (by decide) ["f1", "f2", "f3", "f4", "f5"]).length - 1)) :=
  ⟨⟨by decide, by decide⟩, claim_C1 ["f1", "f2", "f3", "f4", "f5"] 2 (by decide) (by decide)⟩

/-- C7: on the empty `fileIds` input both `createVectorStoreFromFiles` and
`createBatchedVectorStores` return `Err` from the local validation check and
issue zero provider calls. -/
theorem claim_C7 (provider provider2 : List String → Metadata → Result String String)
    (bs : Nat) (hbs : 0 < bs) (metadata metadata2 : Option Metadata) :
    createVectorStoreFromFiles provider [] metadata =
      (Result.error "No file IDs provided for vector store creation", []) ∧
    createBatchedVectorStores provider2 [] bs hbs metadata2 =
      (Result.error "No file IDs provided for batched vector store creation", []) :=
  ⟨rfl, rfl⟩

theorem claim_C7_witness :
    0 < 20 ∧
    (createVectorStoreFromFiles (fun _ _ => Result.ok "vs") [] none =
      (Result.error "No file IDs provided for vector store creation", []) ∧
     createBatchedVectorStores (fun _ _ => Result.ok "vs") [] 20 (by decide) none =
      (Result.error "No file IDs provided for batched vector store creation", [])) :=
  ⟨by decide,
   claim_C7 (fun _ _ => Result.ok "vs") (fun _ _ => Result.ok "vs") 20 (by decide) none none⟩

/-- C10: when the storage credentials are present, `uploadFileFromStorage`
leaves no scratch file behind on any of its exit paths (successful upload,
upload transport failure, download failure), returns `Ok` with the provider
file id exactly on success, and returns `Err` (it never throws) on either
failure. -/
theorem claim_C10 (env : StorageEnv) (download : Result Unit String)
    (leftover : Bool) (upload : Result String String) (t0 : Bool)
    (hcreds : env.credsOk = true) :
    (uploadFileFromStorage env download leftover upload t0).2 = false ∧
    (∀ fid, download = Result.ok () → upload = Result.ok fid →
      (uploadFileFromStorage env download leftover upload t0).1 = Result.ok fid) ∧
    (∀ e, download = Result.error e →
      (uploadFileFromStorage env download leftover upload t0).1 = Result.error e) ∧
    (∀ e, download = Result.ok () → upload = Result.error e →
      (uploadFileFromStorage env download leftover upload t0).1 = Result.error e) := by
  simp only [uploadFileFromStorage, hcreds, Bool.not_true]
  refine ⟨?_, ?_, ?_, ?_⟩
  · cases download with
    | error e => cases leftover <;> simp
    | ok u =>
      cases upload with
      | error e => simp
      | ok fid => simp
  · intro fid hd hu
    subst hd
    subst hu
    simp
  · intro e hd
    subst hd
    simp
  · intro e hd hu
    subst hd
    subst hu
    simp

theorem claim_C10_witness :
    (StorageEnv.credsOk ⟨some "acct", some "key", none⟩ = true) ∧
    ((uploadFileFromStorage ⟨some "acct", some "key", none⟩ (Result.error "boom")
        true (Result.ok "fid") false).2 = false ∧
     (∀ fid, (Result.error "boom" : Result Unit String) = Result.ok () →
        (Result.ok "fid" : Result String String) = Result.ok fid →
        (uploadFileFromStorage ⟨some "acct", some "key", none⟩ (Result.error "boom")
          true (Result.ok "fid") false).1 = Result.ok fid) ∧
     (∀ e, (Result.error "boom" : Result Unit String) = Result.error e →
        (uploadFileFromStorage ⟨some "acct", some "key", none⟩ (Result.error "boom")
          true (Result.ok "fid") false).1 = Result.error e) ∧
     (∀ e, (Result.error "boom" : Result Unit String) = Result.ok () →
        (Result.ok "fid" : Result String String) = Result.error e →
        (uploadFileFromStorage ⟨some "acct", some "key", none⟩ (Result.error "boom")
          true (Result.ok "fid") false).1 = Result.error e)) :=
  ⟨by decide,
   claim_C10 ⟨some "acct", some "key", none⟩ (Result.error "boom") true
     (Result.ok "fid") false (by decide)⟩

/-- C2: on a successful listing the aggregator returns `Ok` with exactly the
ids of the successful uploads, in listing order; names that strip to empty are
filtered out before uploading; failed names are recorded in the failure list
and do not abort the batch; the overall result is `Ok` no matter how many
uploads fail. -/
theorem claim_C2 (env : StorageEnv) (uploader : String → Result String String)
    (cid : String) (names : List String) (hcreds : env.credsOk = true) :
    uploadAllFilesFromConversation env (Result.ok names) uploader cid =
      (Result.ok ((aggFileList cid names).filterMap fun fn => (uploader fn).toOption),
       (aggFileList cid names).filter fun fn => (uploader fn).isError) ∧
    aggFileList cid names = names.filterMap fun nm =>
      if jsReplaceFirst nm (cid ++ "/") "" ≠ "" then some (jsReplaceFirst nm (cid ++ "/") "")
      else none :=
  ⟨uploadAllFiles_spec env uploader cid names hcreds, rfl⟩

theorem claim_C2_witness :
    let env : StorageEnv := ⟨some "acct", some "key", none⟩
    let upl : String → Result String String := fun fn =>
      if fn = "b.csv" then Result.error "transport" else Result.ok ("fid_" ++ fn)
    let names : List String := ["c1/a.csv", "c1/b.csv", "c1/c.csv"]
    env.credsOk = true ∧
    (uploadAllFilesFromConversation env (Result.ok names) upl "c1" =
      (Result.ok ((aggFileList "c1" names).filterMap fun fn => (upl fn).toOption),
       (aggFileList "c1" names).filter fun fn => (upl fn).isError) ∧
     aggFileList "c1" names = names.filterMap fun nm =>
      if jsReplaceFirst nm ("c1" ++ "/") "" ≠ "" then some (jsReplaceFirst nm ("c1" ++ "/") "")
      else none) := by
  intro env upl names
  exact ⟨by decide, claim_C2 env upl "c1" names (by decide)⟩

/-- C3: on non-empty input `createBatchedVectorStores` returns `Ok` carrying
exactly the store ids of the batches whose creation succeeded, in batch
order; when every batch fails it returns `Ok []`, not `Err`. -/
theorem claim_C3 (provider : List String → Metadata → Result String String)
    (fileIds : List String) (bs : Nat) (hbs : 0 < bs) (metadata : Option Metadata)
    (hne : fileIds ≠ []) :
    (createBatchedVectorStores provider fileIds bs hbs metadata).1 =
      Result.ok ((batchCalls metadata (batchesOf bs hbs fileIds).length
          (batchesOf bs hbs fileIds) 0).filterMap
            fun c => (provider c.file_ids c.metadata).toOption) ∧
    ((∀ ids m, (provider ids m).isError = true) →
      (createBatchedVectorStores provider fileIds bs hbs metadata).1 = Result.ok []) := by
  have hs := createBatchedVectorStores_spec provider fileIds bs hbs metadata hne
  constructor
  · rw [hs]
  · intro hfail
    rw [hs]
    have hnil : (batchCalls metadata (batchesOf bs hbs fileIds).length
        (batchesOf bs hbs fileIds) 0).filterMap
          (fun c => (provider c.file_ids c.metadata).toOption) = [] := by
      rw [List.filterMap_eq_nil_iff]
      intro c hc
      exact Result.toOption_eq_none_of_isError (hfail c.file_ids c.metadata)
    rw [hnil]

theorem claim_C3_witness :
    let failingProvider : List String → Metadata → Result String String :=
      fun _ _ => Result.error "provider down"
    let fids : List String := ["f1", "f2", "f3"]
    ((fids ≠ []) ∧ 0 < 2) ∧
    ((createBatchedVectorStores failingProvider fids 2 (by decide) none).1 =
      Result.ok ((batchCalls none (batchesOf 2 (by decide) fids).length
          (batchesOf 2 (by decide) fids) 0).filterMap
            fun c => (failingProvider c.file_ids c.metadata).toOption) ∧
     ((∀ ids m, (failingProvider ids m).isError = true) →
      (createBatchedVectorStores failingProvider fids 2 (by decide) none).1 =
        Result.ok [])) := by
  intro failingProvider fids
  exact ⟨⟨by decide, by decide⟩,
    claim_C3 failingProvider fids 2 (by decide) none (by decide)⟩

/-- C8: `getVectorStoresForConversation` issues exactly one list request with
page limit 100 and, when the listing succeeds, returns `Ok` with the ids of
exactly those returned stores whose metadata object contains the key
`conversationId` with the requested value, in the provider's listing order;
stores with absent or non-matching metadata are merely excluded. -/
theorem claim_C8 (listProvider : Nat → Result (List StoreEntry) String)
    (cid : String) (stores : List StoreEntry)
    (hok : listProvider 100 = Result.ok stores) :
    getVectorStoresForConversation listProvider cid =
      (Result.ok ((stores.filter (storeMatchesConversation cid)).map StoreEntry.id),
       [100]) ∧
    ∀ s : StoreEntry, storeMatchesConversation cid s = true ↔
      ∃ m, s.metadata = some m ∧ m "conversationId" = some (MetaValue.str cid) := by
  constructor
  · simp [getVectorStoresForConversation, hok]
  · intro s
    cases hmd : s.metadata with
    | none => simp [storeMatchesConversation, hmd]
    | some m =>
      simp only [storeMatchesConversation, hmd, Option.some.injEq]
      cases hcv : m "conversationId" with
      | none =>
        simp only [hcv]
        constructor
        · intro h; exact absurd h (by simp)
        · rintro ⟨m2, hm2, hcv2⟩
          subst hm2
          rw [hcv] at hcv2
          exact absurd hcv2 (by simp)
      | some v =>
        simp only [hcv, beq_iff_eq]
        constructor
        · intro h
          exact ⟨m, rfl, by rw [hcv, h]⟩
        · rintro ⟨m2, hm2, hcv2⟩
          subst hm2
          rw [hcv] at hcv2
          exact (Option.some.injEq _ _).mp hcv2.symm |>.symm ▸ rfl

theorem claim_C8_witness :
    let mx : Metadata := Metadata.empty.set "conversationId" (MetaValue.str "x")
    let my : Metadata := Metadata.empty.set "conversationId" (MetaValue.str "y")
    let stores : List StoreEntry :=
      [⟨"vs1", some mx⟩, ⟨"vs2", some my⟩, ⟨"vs3", some mx⟩, ⟨"vs4", none⟩]
    let lp : Nat → Result (List StoreEntry) String := fun _ => Result.ok stores
    lp 100 = Result.ok stores ∧
    (getVectorStoresForConversation lp "x" =
      (Result.ok ((stores.filter (storeMatchesConversation "x")).map StoreEntry.id),
       [100]) ∧
     ∀ s : StoreEntry, storeMatchesConversation "x" s = true ↔
      ∃ m, s.metadata = some m ∧ m "conversationId" = some (MetaValue.str "x")) := by
  intro mx my stores lp
  exact ⟨rfl, claim_C8 lp "x" stores rfl⟩

/-- C9, counterexample to the claim as stated: the boundary does NOT reject
every non-positive `batchSize` — the value `0` is falsy in JavaScript, so
`batchSize ? parseInt(batchSize) : 20` silently replaces it with the default
`20` instead of returning the 400 rejection. -/
theorem claim_C9_counterexample :
    boundaryBatchSize (some 0) = some 20 ∧
    ¬ (∀ b : Int, b ≤ 0 → boundaryBatchSize (some b) = none) := by
  constructor
  · decide
  · intro h
    have h0 := h 0 (by decide)
    have h1 : boundaryBatchSize (some 0) = some 20 := by decide
    rw [h1] at h0
    exact Option.noConfusion h0

/-- C9 (amended): every batch size that reaches the core partitioner from the
boundary is ≥ 1; a negative `batchSize` is rejected by the boundary
validation, while a zero `batchSize` is replaced by the default 20 rather
than rejected; and the boundary call always terminates with a `Result`. -/
theorem claim_C9 (body : Option Int) :
    (∀ n, boundaryBatchSize body = some n → 1 ≤ n) ∧
    (∀ b : Int, body = some b → b < 0 → boundaryBatchSize body = none) ∧
    (body = some 0 → boundaryBatchSize body = some 20) ∧
    (∀ (provider : List String → Metadata → Result String String)
       (fileIds : List String) (metadata : Option Metadata),
      (∃ e, boundaryCreateBatched provider fileIds body metadata = Result.error e) ∨
      (∃ ids, boundaryCreateBatched provider fileIds body metadata = Result.ok ids)) := by
  refine ⟨?_, ?_, ?_, ?_⟩
  · intro n h
    exact boundaryBatchSize_pos h
  · intro b hb hneg
    subst hb
    simp only [boundaryBatchSize, parsedBatchSize]
    rw [if_neg (show ¬ b = 0 by omega), if_pos (by omega)]
  · intro h
    subst h
    decide
  · intro provider fileIds metadata
    unfold boundaryCreateBatched
    by_cases hfe : fileIds.length = 0
    · rw [if_pos hfe]
      exact Or.inl ⟨_, rfl⟩
    · rw [if_neg hfe]
      split
      · exact Or.inl ⟨_, rfl⟩
      · rename_i n heq
        have hne : fileIds ≠ [] := fun h => hfe (by simp [h])
        rw [createBatchedVectorStores_spec provider fileIds n
          (boundaryBatchSize_pos heq) metadata hne]
        exact Or.inr ⟨_, rfl⟩

theorem claim_C9_witness : boundaryBatchSize (some (-3)) = none :=
  (claim_C9 (some (-3))).2.1 (-3) rfl (by decide)

/-- C4: when the listing succeeds with zero objects, the aggregator returns
`Ok []`, `createVectorStoreFromConversation` returns `Err` with a message
beginning "No files found" (stated as: the message is "No files found"
followed by some rest), and `createBatchedVectorStoresFromConversation`
returns `Ok []` — the two orchestrators are asymmetric on the zero-file
case. -/
theorem claim_C4 (env : StorageEnv) (uploader : String → Result String String)
    (provider : List String → Metadata → Result String String)
    (cid now : String) (metadata : Option Metadata) (bs : Nat) (hbs : 0 < bs)
    (hcreds : env.credsOk = true) :
    uploadAllFilesFromConversation env (Result.ok []) uploader cid =
      (Result.ok [], []) ∧
    (∃ msg, (createVectorStoreFromConversation env (Result.ok []) uploader provider
        cid metadata now).1 = Result.error msg ∧
      ∃ rest, msg = "No files found" ++ rest) ∧
    (createBatchedVectorStoresFromConversation env (Result.ok []) uploader provider
        cid bs hbs metadata now).1 = Result.ok [] := by
  have hagg : uploadAllFilesFromConversation env (Result.ok []) uploader cid =
      (Result.ok [], []) := by
    have := uploadAllFiles_spec env uploader cid [] hcreds
    simpa [aggFileList] using this
  refine ⟨hagg,
    ⟨"No files found in conversation to create vector store", ?_,
      " in conversation to create vector store", rfl⟩, ?_⟩
  · simp [createVectorStoreFromConversation, hagg]
  · simp [createBatchedVectorStoresFromConversation, hagg]

theorem claim_C4_witness :
    let env : StorageEnv := ⟨some "acct", some "key", none⟩
    let upl : String → Result String String := fun _ => Result.ok "fid"
    let provider : List String → Metadata → Result String String :=
      fun _ _ => Result.ok "vs"
    env.credsOk = true ∧ 0 < 20 ∧
    (uploadAllFilesFromConversation env (Result.ok []) upl "c2" =
      (Result.ok [], []) ∧
     (∃ msg, (createVectorStoreFromConversation env (Result.ok []) upl provider
        "c2" none "T0").1 = Result.error msg ∧
      ∃ rest, msg = "No files found" ++ rest) ∧
     (createBatchedVectorStoresFromConversation env (Result.ok []) upl provider
        "c2" 20 (by decide) none "T0").1 = Result.ok []) := by
  intro env upl provider
  exact ⟨by decide, by decide,
    claim_C4 env upl provider "c2" "T0" none 20 (by decide) (by decide)⟩

/-- Every provider call recorded by `createBatchedVectorStores` carries a
batch-metadata object built on top of the supplied base metadata. -/
theorem mem_createBatched_calls
    (provider : List String → Metadata → Result String String)
    (fids : List String) (bs : Nat) (hbs : 0 < bs) (meta : Option Metadata)
    (c : CreateCall)
    (hc : c ∈ (createBatchedVectorStores provider fids bs hbs meta).2) :
    ∃ n t s b, c = ⟨b, batchMeta meta n t s⟩ := by
  by_cases hfe : fids = []
  · subst hfe
    simp [createBatchedVectorStores] at hc
  · rw [createBatchedVectorStores_spec provider fids bs hbs meta hfe] at hc
    obtain ⟨n, b, hcb⟩ := mem_batchCalls meta (batchesOf bs hbs fids).length
      (batchesOf bs hbs fids) 0 c hc
    exact ⟨n, (batchesOf bs hbs fids).length, b.length, b, hcb⟩

/-- C5: on non-empty input `createBatchedVectorStores` calls the Vector Store
Builder once per slice, in slice order; the k-th call (0-based) carries the
k-th slice as `file_ids` and metadata equal to the caller-supplied base
metadata merged with `batchNumber = k + 1`, `totalBatches` = the number of
slices, and `batchSize` = the length of that slice. -/
theorem claim_C5 (provider : List String → Metadata → Result String String)
    (fileIds : List String) (bs : Nat) (hbs : 0 < bs) (metadata : Option Metadata)
    (hne : fileIds ≠ []) :
    (createBatchedVectorStores provider fileIds bs hbs metadata).2.length =
      (batchesOf bs hbs fileIds).length ∧
    ∀ k c, (createBatchedVectorStores provider fileIds bs hbs metadata).2.get? k
        = some c →
      (batchesOf bs hbs fileIds).get? k = some c.file_ids ∧
      c.metadata "batchNumber" = some (.num (k + 1)) ∧
      c.metadata "totalBatches" = some (.num (batchesOf bs hbs fileIds).length) ∧
      c.metadata "batchSize" = some (.num c.file_ids.length) ∧
      ∀ key, key ≠ "batchNumber" → key ≠ "totalBatches" → key ≠ "batchSize" →
        c.metadata key = (metadata.getD Metadata.empty) key := by
  have hs := createBatchedVectorStores_spec provider fileIds bs hbs metadata hne
  have h2 : (createBatchedVectorStores provider fileIds bs hbs metadata).2 =
      batchCalls metadata (batchesOf bs hbs fileIds).length (batchesOf bs hbs fileIds) 0 := by
    rw [hs]
  constructor
  · rw [h2, batchCalls_length]
  · intro k c hkc
    rw [h2, batchCalls_get?] at hkc
    cases hbk : (batchesOf bs hbs fileIds).get? k with
    | none =>
      rw [hbk] at hkc
      simp at hkc
    | some b =>
      rw [hbk] at hkc
      have hc : c = ⟨b, batchMeta metadata (k + 1)
          (batchesOf bs hbs fileIds).length b.length⟩ := by
        simpa using hkc.symm
      have hfi : c.file_ids = b := by rw [hc]
      have hmd : c.metadata =
          batchMeta metadata (k + 1) (batchesOf bs hbs fileIds).length b.length := by
        rw [hc]
      refine ⟨?_, ?_, ?_, ?_, ?_⟩
      · rw [hfi]
      · rw [hmd, batchMeta_batchNumber]
        norm_cast
      · rw [hmd, batchMeta_totalBatches]
      · rw [hmd, hfi, batchMeta_batchSize]
      · intro key h1 h2 h3
        rw [hmd, batchMeta_other metadata (k + 1)
          (batchesOf bs hbs fileIds).length b.length key h1 h2 h3]

theorem claim_C5_witness :
    let provider : List String → Metadata → Result String String :=
      fun ids _ => Result.ok ("vs_" ++ toString ids.length)
    let fids : List String := ["f1", "f2", "f3", "f4", "f5"]
    (0 < 2 ∧ fids ≠ []) ∧
    ((createBatchedVectorStores provider fids 2 (by decide) none).2.length =
      (batchesOf 2 (by decide) fids).length ∧
     ∀ k c, (createBatchedVectorStores provider fids 2 (by decide) none).2.get? k
        = some c →
      (batchesOf 2 (by decide) fids).get? k = some c.file_ids ∧
      c.metadata "batchNumber" = some (.num (k + 1)) ∧
      c.metadata "totalBatches" = some (.num (batchesOf 2 (by decide) fids).length) ∧
      c.metadata "batchSize" = some (.num c.file_ids.length) ∧
      ∀ key, key ≠ "batchNumber" → key ≠ "totalBatches" → key ≠ "batchSize" →
        c.metadata key = ((none : Option Metadata).getD Metadata.empty) key) := by
  intro provider fids
  exact ⟨⟨by decide, by decide⟩, claim_C5 provider fids 2 (by decide) none (by decide)⟩

/-- C6, counterexample to the claim as stated: when the caller supplies a
metadata argument to `createVectorStoreFromConversation` (here the empty
object `{}`), the store is created with that metadata as-is — `metadata ||
{conversationId, createdAt}` only applies the stamp when no metadata was
supplied — so the created store's metadata contains neither `conversationId`
nor `createdAt`. -/
theorem claim_C6_counterexample :
    let env : StorageEnv := ⟨some "acct", some "key", none⟩
    let listing : Result (List String) String := Result.ok ["c1/a.csv"]
    let upl : String → Result String String := fun _ => Result.ok "fid1"
    let provider : List String → Metadata → Result String String :=
      fun _ _ => Result.ok "vs1"
    (createVectorStoreFromConversation env listing upl provider "c1"
        (some Metadata.empty) "2025-01-01T00:00:00Z").1 = Result.ok "vs1" ∧
    (createVectorStoreFromConversation env listing upl provider "c1"
        (some Metadata.empty) "2025-01-01T00:00:00Z").2.length = 1 ∧
    ∀ c ∈ (createVectorStoreFromConversation env listing upl provider "c1"
        (some Metadata.empty) "2025-01-01T00:00:00Z").2,
      c.metadata "conversationId" = none ∧ c.metadata "createdAt" = none := by
  intro env listing upl provider
  refine ⟨?_, ?_, ?_⟩ <;> decide

/-- C6 (amended): every store created through the batched orchestrator
`createBatchedVectorStoresFromConversation` carries metadata stamped with
`conversationId`, `createdAt`, `batchNumber`, `totalBatches` and `batchSize`
regardless of the caller's metadata argument; the non-batched orchestrator
`createVectorStoreFromConversation` stamps `conversationId` and `createdAt`
only when the caller supplies no metadata — a supplied metadata argument is
used as-is, unstamped. -/
theorem claim_C6 (env : StorageEnv) (listing : Result (List String) String)
    (uploader : String → Result String String)
    (provider : List String → Metadata → Result String String)
    (cid now : String) (bs : Nat) (hbs : 0 < bs) (metadata : Option Metadata) :
    (∀ c ∈ (createBatchedVectorStoresFromConversation env listing uploader provider
        cid bs hbs metadata now).2,
      c.metadata "conversationId" = some (.str cid) ∧
      c.metadata "createdAt" = some (.str now) ∧
      (c.metadata "batchNumber").isSome = true ∧
      (c.metadata "totalBatches").isSome = true ∧
      (c.metadata "batchSize").isSome = true) ∧
    (metadata = none →
      ∀ c ∈ (createVectorStoreFromConversation env listing uploader provider
          cid none now).2,
        c.metadata "conversationId" = some (.str cid) ∧
        c.metadata "createdAt" = some (.str now)) := by
  constructor
  · intro c hc
    simp only [createBatchedVectorStoresFromConversation] at hc
    cases hup : (uploadAllFilesFromConversation env listing uploader cid).1 with
    | error e =>
      rw [hup] at hc
      simp at hc
    | ok fids =>
      rw [hup] at hc
      by_cases hfe : fids.length = 0
      · simp [hfe] at hc
      · simp only [if_neg hfe] at hc
        cases hr : (createBatchedVectorStores provider fids bs hbs
            (some (((metadata.getD Metadata.empty).set "conversationId"
              (.str cid)).set "createdAt" (.str now)))).1 with
        | error e =>
          rw [hr] at hc
          simp only [] at hc
          obtain ⟨n, t, s, b, hcb⟩ := mem_createBatched_calls provider fids bs hbs _ c hc
          subst hcb
          simp [batchMeta, Metadata.set]
        | ok ids =>
          rw [hr] at hc
          simp only [] at hc
          obtain ⟨n, t, s, b, hcb⟩ := mem_createBatched_calls provider fids bs hbs _ c hc
          subst hcb
          simp [batchMeta, Metadata.set]
  · intro hmeta c hc
    simp only [createVectorStoreFromConversation] at hc
    cases hup : (uploadAllFilesFromConversation env listing uploader cid).1 with
    | error e =>
      rw [hup] at hc
      simp at hc
    | ok fids =>
      rw [hup] at hc
      by_cases hfe : fids.length = 0
      · simp [hfe] at hc
      · simp only [if_neg hfe, createVectorStoreFromFiles, Option.getD_some] at hc
        cases hr : provider fids ((Metadata.empty.set "conversationId"
            (.str cid)).set "createdAt" (.str now)) with
        | error e =>
          rw [hr] at hc
          simp only [if_neg hfe] at hc
          simp at hc
          subst hc
          constructor <;> simp [Metadata.set]
        | ok id =>
          rw [hr] at hc
          simp only [if_neg hfe] at hc
          simp at hc
          subst hc
          constructor <;> simp [Metadata.set]

theorem claim_C6_witness :
    let env : StorageEnv := ⟨some "acct", some "key", none⟩
    let listing : Result (List String) String := Result.ok ["c1/a.csv", "c1/b.csv"]
    let upl : String → Result String String := fun fn => Result.ok ("fid_" ++ fn)
    let provider : List String → Metadata → Result String String :=
      fun _ _ => Result.ok "vs1"
    0 < 2 ∧
    ((∀ c ∈ (createBatchedVectorStoresFromConversation env listing upl provider
        "c1" 2 (by decide) (some Metadata.empty) "T0").2,
      c.metadata "conversationId" = some (.str "c1") ∧
      c.metadata "createdAt" = some (.str "T0") ∧
      (c.metadata "batchNumber").isSome = true ∧
      (c.metadata "totalBatches").isSome = true ∧
      (c.metadata "batchSize").isSome = true) ∧
     ((some Metadata.empty : Option Metadata) = none →
      ∀ c ∈ (createVectorStoreFromConversation env listing upl provider
          "c1" none "T0").2,
        c.metadata "conversationId" = some (.str "c1") ∧
        c.metadata "createdAt" = some (.str "T0"))) := by
  intro env listing upl provider
  exact ⟨by decide,
    claim_C6 env listing upl provider "c1" "T0" 2 (by decide) (some Metadata.empty)⟩

end PocAzure
